import Mathlib

/-!
Verification development for the election/reserve-duty analysis script
(`main_script.py`).  The script is a single linear pandas pipeline; we give a
shallow embedding of its stages and prove the specified properties.

Modelling conventions:
* all numeric cell values are exact rationals `ℚ` (the script's float
  arithmetic is modelled exactly; every claim proved here is about the exact
  values the formulas denote);
* a missing value (pandas `NaN`) is `none : Option ℚ`;
* Hebrew column names are transliterated: `מחל`→`mahal`, `שס`→`shas`,
  `ג`→`g`, `ט`→`t`, `ב`→`b`, `פה`→`pe`, `כן`→`ken`, `ל`→`l`, `עם`→`am`,
  `ום`→`om`, `אמת`→`emet`, `מרצ`→`meretz`, `כשרים`→`kosher`;
* the script's cleaning step (lines 75-77) is modelled twice, at two levels of
  abstraction that are connected by a lemma: a generic DataFrame model
  (`cleaner`) capturing the pandas mask / dropna mechanics on arbitrary
  columns, and a record-level pipeline (`cleanRows`) used for the numeric
  claims downstream.
-/

namespace Reserves

/-- A cell of the table: `none` models a pandas missing value (`NaN`). -/
abbrev Val := Option ℚ

/-! ### Generic DataFrame model of the cleaning step (lines 75-77)

`data_analysis = data[data[['coal', 'opp', 'reserve_days']] > 0].copy()`
indexes the frame with a boolean *DataFrame*, which is `DataFrame.where`:
cells of the three checked columns are kept where the comparison holds and
replaced by `NaN` elsewhere; every column *absent from the condition frame*
is aligned as all-`False` and hence replaced by `NaN` wholesale.
`dropna(subset=[...])` then drops rows with a missing value among the three
checked columns, and `dropna(axis=1)` drops every column still containing a
missing value. -/

/-- A row, as the association list of its cells keyed by column name. -/
abbrev RowCells := List (String × Val)

/-- Read the cell of column `c`; a column absent from the row is missing. -/
def getCell (r : RowCells) (c : String) : Val := (r.lookup c).getD none

/-- A DataFrame: a column list and named rows (the name is the index key). -/
structure DF where
  cols : List String
  rows : List (String × RowCells)

/-- The three columns checked by the cleaner (line 75-76). -/
def checkedCols : List String := ["coal", "opp", "reserve_days"]

/-- Elementwise effect of `data[cond]` on a checked cell: the value is kept
when strictly positive, otherwise (non-positive or already missing, since
`NaN > 0` is false) it becomes missing. -/
def maskPos : Val → Val
  | some x => if 0 < x then some x else none
  | none => none

/-- The row produced by the boolean-mask indexing of line 75: checked columns
are masked by positivity, all other columns become missing. -/
def maskedCells (cols : List String) (r : RowCells) : RowCells :=
  cols.map (fun c => (c, if c ∈ checkedCols then maskPos (getCell r c) else none))

/-- Line 75: `data[data[['coal', 'opp', 'reserve_days']] > 0]`. -/
def maskStep (df : DF) : DF :=
  { cols := df.cols
    rows := df.rows.map (fun nr => (nr.1, maskedCells df.cols nr.2)) }

/-- Does the row have a value in every checked column? (`dropna(subset=...)`
keeps exactly these rows.) -/
def hasChecked (r : RowCells) : Bool :=
  checkedCols.all (fun c => (getCell r c).isSome)

/-- Line 76: `dropna(subset=['coal', 'opp', 'reserve_days'], inplace=True)`. -/
def dropnaSubsetStep (df : DF) : DF :=
  { df with rows := df.rows.filter (fun nr => hasChecked nr.2) }

/-- Line 77: `dropna(axis=1, inplace=True)` - drop every column that still
contains a missing value in some remaining row. -/
def dropnaColsStep (df : DF) : DF :=
  { cols := df.cols.filter (fun c => df.rows.all (fun nr => (getCell nr.2 c).isSome))
    rows := df.rows }

/-- The Cleaner, lines 75-77 of the script. -/
def cleaner (df : DF) : DF := dropnaColsStep (dropnaSubsetStep (maskStep df))

/-- The row-level predicate the Cleaner's row filtering implements: the cell
is present and strictly positive. -/
def posCell : Val → Bool
  | some x => if 0 < x then true else false
  | none => false

/-- A row survives the Cleaner's row filtering iff `coal`, `opp` and
`reserve_days` are all present and strictly positive. -/
def survivesClean (r : RowCells) : Bool :=
  posCell (getCell r "coal") && posCell (getCell r "opp") &&
    posCell (getCell r "reserve_days")

/-! ### Record-level pipeline -/

/-- A merged row of `data` (line 41): the per-party vote columns of the
voting table, the valid-vote count `kosher` (`כשרים`), and the reserve-duty
days brought in by the left join (missing when the locality has no reserve
record).  The `saar` column does not exist in the input files; it is created
by line 64, so it carries default `0` until `applySplit` overwrites it. -/
structure DataRow where
  name : String
  mahal : ℚ := 0
  shas : ℚ := 0
  g : ℚ := 0
  t : ℚ := 0
  b : ℚ := 0
  saar : ℚ := 0
  pe : ℚ := 0
  ken : ℚ := 0
  l : ℚ := 0
  am : ℚ := 0
  om : ℚ := 0
  emet : ℚ := 0
  meretz : ℚ := 0
  kosher : ℚ := 0
  reserve_days : Option ℚ := none
  coal : ℚ := 0
  opp : ℚ := 0
deriving DecidableEq

/-- Keys of the `coalition` dict (lines 44-51).  Note that `saar` (New Hope)
is a member. -/
def coalition : List String := ["mahal", "shas", "g", "t", "b", "saar"]

/-- Keys of the `opposition` dict (lines 52-60). -/
def opposition : List String :=
  ["pe", "ken", "l", "am", "om", "emet", "meretz"]

/-- The vote count a row holds for a given party key. -/
def partyVote (x : DataRow) : String → ℚ := fun p =>
  if p = "mahal" then x.mahal
  else if p = "shas" then x.shas
  else if p = "g" then x.g
  else if p = "t" then x.t
  else if p = "b" then x.b
  else if p = "saar" then x.saar
  else if p = "pe" then x.pe
  else if p = "ken" then x.ken
  else if p = "l" then x.l
  else if p = "am" then x.am
  else if p = "om" then x.om
  else if p = "emet" then x.emet
  else if p = "meretz" then x.meretz
  else 0

/-- Lines 64-65: `data['saar'] = data['כן'] * SAAR_RATIO_FROM_GANTZ` and
`data['כן'] = data['כן'] * (1 - SAAR_RATIO_FROM_GANTZ)`; `r` is the split
ratio (the script's default is `0`).  Both right-hand sides read the
original `כן` column, since line 64 runs before line 65 overwrites it. -/
def applySplit (r : ℚ) (x : DataRow) : DataRow :=
  { x with saar := x.ken * r, ken := x.ken * (1 - r) }

/-- Lines 68-69: `data['coal'] = data[coalition.keys()].sum(axis=1)` and
`data['opp'] = data[opposition.keys()].sum(axis=1)`. -/
def addTotals (x : DataRow) : DataRow :=
  { x with
    coal := (coalition.map (partyVote x)).sum
    opp := (opposition.map (partyVote x)).sum }

/-- The sum of every party-vote column of the row (used to state vote
conservation across the split). -/
def totalVotes (x : DataRow) : ℚ :=
  ((coalition ++ opposition).map (partyVote x)).sum

/-- Recursion core of `dedupKeepFirst`: `seen` is the set of index keys
already emitted. -/
def dedupGo (seen : List String) : List DataRow → List DataRow
  | [] => []
  | x :: xs =>
    if x.name ∈ seen then dedupGo seen xs
    else x :: dedupGo (x.name :: seen) xs

/-- Line 72: `data = data.loc[~data.index.duplicated(keep='first')]` - keep
the first row of every index key. -/
def dedupKeepFirst (rows : List DataRow) : List DataRow := dedupGo [] rows

/-- A row of the cleaned analysis table.  After lines 75-77 the frame holds
exactly the columns `coal`, `opp`, `reserve_days` (see the cleaner model
above), and line 81 re-adds `kosher` from `data['כשרים']` by index
alignment, which recovers the same row's value (the index is unique after
line 72). -/
structure CRow where
  name : String
  coal : ℚ
  opp : ℚ
  reserve_days : ℚ
  kosher : ℚ
deriving DecidableEq

/-- Lines 75-77 and 81 at the record level: keep exactly the rows whose
`coal`, `opp` and `reserve_days` are present and strictly positive (see
`cleaner_rows_spec` for the proof that the DataFrame-level cleaner filters
rows by this predicate), and carry `kosher` along. -/
def cleanRows (rows : List DataRow) : List CRow :=
  rows.filterMap (fun x =>
    match x.reserve_days with
    | some d =>
      if 0 < x.coal ∧ 0 < x.opp ∧ 0 < d then
        some ⟨x.name, x.coal, x.opp, d, x.kosher⟩
      else none
    | none => none)

/-- A fully derived analysis row (lines 82-92). -/
structure AnRow where
  name : String
  coal : ℚ
  opp : ℚ
  reserve_days : ℚ
  kosher : ℚ
  coal_reserves_ratio : ℚ
  opp_reserves_ratio : ℚ
  coal_ratio : ℚ
  opp_ratio : ℚ
  coal_reserves_times_ratio : ℚ
  opp_reserves_times_ratio : ℚ
deriving DecidableEq

/-- Lines 82-92: the ratio and weighted-reserve columns.
`coal_ratio = coal / (coal + opp)` (line 87), `opp_ratio = 1 - coal_ratio`
(line 88), and the weighted reserve days are `ratio * reserve_days`
(lines 91-92). -/
def addRatios (c : CRow) : AnRow :=
  { name := c.name
    coal := c.coal
    opp := c.opp
    reserve_days := c.reserve_days
    kosher := c.kosher
    coal_reserves_ratio := c.reserve_days / c.coal
    opp_reserves_ratio := c.reserve_days / c.opp
    coal_ratio := c.coal / (c.coal + c.opp)
    opp_ratio := 1 - c.coal / (c.coal + c.opp)
    coal_reserves_times_ratio := c.coal / (c.coal + c.opp) * c.reserve_days
    opp_reserves_times_ratio := (1 - c.coal / (c.coal + c.opp)) * c.reserve_days }

/-- The analysis table `data_analysis` as of line 92: split, bloc totals,
index dedup, cleaning, then the derived columns. -/
def analysisRows (r : ℚ) (input : List DataRow) : List AnRow :=
  (cleanRows (dedupKeepFirst ((input.map (applySplit r)).map addTotals))).map addRatios

/-! ### Binner / Normalizer (lines 106-123)

`pd.cut(x, bins=np.arange(0, 1.05, step=0.05), labels=np.round(np.arange(0, 1, step=0.05), 2))`
with the default `right=True` and `include_lowest=False` assigns `x` to the
left-open, right-closed interval `(i/20, (i+1)/20]` for `i = 0, ..., 19`,
labelled by the interval's lower edge `i/20`; a value outside `(0, 1]` (in
particular a value equal to `0`) gets no bin (`NaN`). -/

/-- Search the 20 intervals for the one containing `x`.  The intervals are
pairwise disjoint, so the search order is irrelevant; we count down from
`fuel = 20`. -/
def binOfAux (x : ℚ) : ℕ → Option ℕ
  | 0 => none
  | n + 1 =>
    if (n : ℚ) / 20 < x ∧ x ≤ ((n : ℚ) + 1) / 20 then some n else binOfAux x n

/-- Line 106-110: the bin label `pd.cut` assigns to a ratio `x`, or `none`
when `x` falls in no bin. -/
def binOf (x : ℚ) : Option ℚ := (binOfAux x 20).map (fun i : ℕ => (i : ℚ) / 20)

/-- The 20 bin labels `np.round(np.arange(0, 1, step=0.05), 2)`:
`0.00, 0.05, ..., 0.95`, i.e. `i/20` for `i = 0, ..., 19`. -/
def binLabels : List ℚ := (List.range 20).map (fun i : ℕ => (i : ℚ) / 20)

/-- Comparison of bin-label cells for `sort_values` (ascending, missing
values last, pandas' `na_position='last'`). -/
def cutLE : Val → Val → Bool
  | some a, some b => if a ≤ b then true else false
  | some _, none => true
  | none, some _ => false
  | none, none => true

/-- The sort relation of line 112 for a given bloc-ratio column. -/
def cutRel (sel : AnRow → ℚ) (a b : AnRow) : Prop :=
  cutLE (binOf (sel a)) (binOf (sel b)) = true

instance cutRelDecidable (sel : AnRow → ℚ) : DecidableRel (cutRel sel) :=
  fun a b => inferInstanceAs (Decidable (cutLE (binOf (sel a)) (binOf (sel b)) = true))

/-- Line 112: `data_analysis.sort_values(by=party + '_cut', inplace=True)` -
sort the analysis rows ascending by bin label.  (The claims proved below are
invariant under the permutation the sort chooses, so any correct
ascending-by-key sort models the pandas sort.) -/
def sortByCut (sel : AnRow → ℚ) (rows : List AnRow) : List AnRow :=
  List.insertionSort (cutRel sel) rows

/-- Running sums with accumulator `acc` (`Series.cumsum`). -/
def cumsumFrom (acc : ℚ) : List ℚ → List ℚ
  | [] => []
  | x :: xs => (acc + x) :: cumsumFrom (acc + x) xs

/-- Lines 114-115: `cumsum()` of a column (no cell of the summed columns is
missing in the cleaned table, so the skipna behaviour never triggers). -/
def cumsum (xs : List ℚ) : List ℚ := cumsumFrom 0 xs

/-- `agg("max")` of a group of values; an empty group yields `NaN`. -/
def aggMax : List ℚ → Val
  | [] => none
  | x :: xs =>
    match aggMax xs with
    | none => some x
    | some m => some (max x m)

/-- Lines 117-120 for one bin label: group the sorted rows' cumulative
reserve-days by bin label and take the group's maximum; with
`observed=False` an empty group is reported as `NaN`. -/
def resultsColOf (sel : AnRow → ℚ) (sorted : List AnRow) (lab : ℚ) : Val :=
  aggMax
    ((((sorted.map (fun a => binOf (sel a))).zip
        (cumsum (sorted.map (fun a => a.reserve_days)))).filterMap
      (fun p => if p.1 = some lab then some p.2 else none)))

/-- Division of cells, propagating missing values: a missing operand yields a
missing result (line 123: dividing the column by `results.loc[0.95]`; when
that reference cell is `NaN` every quotient is `NaN`).  A zero divisor never
occurs on the claims' scope (the reference value is a sum of positive
reserve-day values); it is mapped to `none` as well. -/
def cellDiv : Val → Val → Val
  | some x, some y => if y = 0 then none else some (x / y)
  | some _, none => none
  | none, _ => none

/-- The analysis rows in the order the loop body sees them for
`party = 'coal'` (first iteration, line 112 sorts the table by `coal_cut`). -/
def coalSorted (r : ℚ) (input : List DataRow) : List AnRow :=
  sortByCut (fun a => a.coal_ratio) (analysisRows r input)

/-- The order the loop body sees for `party = 'opp'`: the second iteration
re-sorts the already coal-sorted table by `opp_cut`. -/
def oppSorted (r : ℚ) (input : List DataRow) : List AnRow :=
  sortByCut (fun a => a.opp_ratio) (coalSorted r input)

/-- Line 114, first iteration: the `coal_reserves` cumulative column. -/
def coal_reserves (r : ℚ) (input : List DataRow) : List ℚ :=
  cumsum ((coalSorted r input).map (fun a => a.reserve_days))

/-- Line 115, first iteration: the `coal_votes_cumsum` cumulative column. -/
def coal_votes_cumsum (r : ℚ) (input : List DataRow) : List ℚ :=
  cumsum ((coalSorted r input).map (fun a => a.kosher))

/-- Line 114, second iteration: the `opp_reserves` cumulative column. -/
def opp_reserves (r : ℚ) (input : List DataRow) : List ℚ :=
  cumsum ((oppSorted r input).map (fun a => a.reserve_days))

/-- Line 115, second iteration: the `opp_votes_cumsum` cumulative column. -/
def opp_votes_cumsum (r : ℚ) (input : List DataRow) : List ℚ :=
  cumsum ((oppSorted r input).map (fun a => a.kosher))

/-- Line 123 for `party = 'coal'`: the normalized result column, every bin's
value divided by the value at the bin labelled `0.95 = 19/20`. -/
def coalNormalized (r : ℚ) (input : List DataRow) (lab : ℚ) : Val :=
  cellDiv (resultsColOf (fun a => a.coal_ratio) (coalSorted r input) lab)
    (resultsColOf (fun a => a.coal_ratio) (coalSorted r input) (19 / 20))

/-- Line 123 for `party = 'opp'`. -/
def oppNormalized (r : ℚ) (input : List DataRow) (lab : ℚ) : Val :=
  cellDiv (resultsColOf (fun a => a.opp_ratio) (oppSorted r input) lab)
    (resultsColOf (fun a => a.opp_ratio) (oppSorted r input) (19 / 20))

/-- The cells of a `DataRow` as a DataFrame row, with the columns `data`
holds just before line 75 (party votes, `kosher`, the joined `reserve_days`,
the created `saar`, and the bloc totals).  This ties the record-level
pipeline to the DataFrame-level cleaner model: see
`survivesClean_dataRowCells`. -/
def dataRowCells (x : DataRow) : RowCells :=
  [("mahal", some x.mahal), ("shas", some x.shas), ("g", some x.g),
   ("t", some x.t), ("b", some x.b), ("pe", some x.pe), ("ken", some x.ken),
   ("l", some x.l), ("am", some x.am), ("om", some x.om),
   ("emet", some x.emet), ("meretz", some x.meretz),
   ("kosher", some x.kosher), ("reserve_days", x.reserve_days),
   ("saar", some x.saar), ("coal", some x.coal), ("opp", some x.opp)]

/-! ### Concrete inputs used to instantiate the theorems -/

/-- A row that passes the cleaner's checks. -/
def exCellsPass : RowCells :=
  [("coal", some 2), ("opp", some 3), ("reserve_days", some 4)]

/-- A two-row frame: row `x` passes the cleaner's row checks (its `kosher`
cell is missing), row `y` fails them (`opp` is missing). -/
def exDF1 : DF :=
  { cols := ["coal", "opp", "reserve_days", "kosher"]
    rows :=
      [("x", [("coal", some 2), ("opp", some 3), ("reserve_days", some 4),
              ("kosher", none)]),
       ("y", [("coal", some 1), ("opp", none), ("reserve_days", some 2),
              ("kosher", some 5)])] }

/-- A frame with an `extra` column that has no missing value anywhere and a
single row passing the cleaner's row checks. -/
def exDF3 : DF :=
  { cols := ["coal", "opp", "reserve_days", "extra"]
    rows :=
      [("x", [("coal", some 1), ("opp", some 2), ("reserve_days", some 3),
              ("extra", some 7)])] }

/-- A locality whose designated party (`כן`) holds 100 votes and whose other
vote columns are all zero. -/
def exRowKen : DataRow := { name := "k", ken := 100 }

/-- A locality with `coal = 3`, `opp = 1`, positive reserve days. -/
def exRowMid : DataRow :=
  { name := "m", mahal := 3, pe := 1, kosher := 1, reserve_days := some 2 }

/-- A locality whose coalition ratio `1/2` falls in the bin labelled `0.45`;
its bloc ratios never reach the bin labelled `0.95`. -/
def exRowHalf : DataRow :=
  { name := "a", mahal := 1, pe := 1, kosher := 3, reserve_days := some 4 }

/-- A locality with coalition ratio `99/100`, which falls in the bin
labelled `0.95`. -/
def exRowCoal : DataRow :=
  { name := "a", mahal := 99, pe := 1, kosher := 5, reserve_days := some 10 }

/-- A locality with opposition ratio `99/100`. -/
def exRowOpp : DataRow :=
  { name := "b", mahal := 1, pe := 99, kosher := 5, reserve_days := some 20 }

/-! ### Lemmas about the DataFrame-level cleaner -/

lemma getCell_nil (c : String) : getCell [] c = none := rfl

lemma getCell_cons (d : String) (v : Val) (rest : RowCells) (c : String) :
    getCell ((d, v) :: rest) c = if c = d then v else getCell rest c := by
  by_cases h : c = d
  · subst h; simp [getCell, List.lookup]
  · have hb : (c == d) = false := beq_eq_false_iff_ne.mpr h
    simp [getCell, List.lookup, hb, h]

lemma getCell_maskedCells (cols : List String) (r : RowCells) (c : String) :
    getCell (maskedCells cols r) c =
      if c ∈ cols then
        (if c ∈ checkedCols then maskPos (getCell r c) else none)
      else none := by
  induction cols with
  | nil => simp [maskedCells, getCell_nil]
  | cons d ds ih =>
    by_cases hcd : c = d
    · subst hcd
      simp [maskedCells, getCell_cons]
    · simp only [maskedCells, List.map_cons, getCell_cons, if_neg hcd, List.mem_cons]
      simp only [maskedCells] at ih
      rw [ih]
      by_cases hds : c ∈ ds <;> simp [hds, hcd]

lemma maskPos_isSome (v : Val) : (maskPos v).isSome = posCell v := by
  cases v with
  | none => rfl
  | some x =>
    by_cases h : 0 < x <;> simp [maskPos, posCell, h]

lemma posCell_eq_true_iff (v : Val) :
    posCell v = true ↔ ∃ x, v = some x ∧ 0 < x := by
  cases v with
  | none => simp [posCell]
  | some x =>
    by_cases h : 0 < x <;> simp [posCell, h]

lemma survivesClean_eq_true_iff (r : RowCells) :
    survivesClean r = true ↔
      ((∃ x, getCell r "coal" = some x ∧ 0 < x) ∧
        (∃ x, getCell r "opp" = some x ∧ 0 < x) ∧
        (∃ x, getCell r "reserve_days" = some x ∧ 0 < x)) := by
  simp [survivesClean, Bool.and_eq_true, posCell_eq_true_iff, and_assoc]

lemma hasChecked_maskedCells (cols : List String) (r : RowCells)
    (hc : ∀ c ∈ checkedCols, c ∈ cols) :
    hasChecked (maskedCells cols r) = survivesClean r := by
  have h1 : "coal" ∈ cols := hc _ (by simp [checkedCols])
  have h2 : "opp" ∈ cols := hc _ (by simp [checkedCols])
  have h3 : "reserve_days" ∈ cols := hc _ (by simp [checkedCols])
  simp only [hasChecked, checkedCols, List.all_cons, List.all_nil,
    getCell_maskedCells, survivesClean]
  simp [h1, h2, h3, checkedCols, maskPos_isSome, Bool.and_assoc]

lemma cleaner_rows_spec (df : DF) (hc : ∀ c ∈ checkedCols, c ∈ df.cols) :
    (cleaner df).rows =
      (df.rows.filter (fun nr => survivesClean nr.2)).map
        (fun nr => (nr.1, maskedCells df.cols nr.2)) := by
  show ((df.rows.map (fun nr => (nr.1, maskedCells df.cols nr.2))).filter
      (fun nr => hasChecked nr.2)) = _
  rw [List.filter_map]
  congr 1
  exact List.filter_congr (fun nr _ => hasChecked_maskedCells df.cols nr.2 hc)

lemma cleaner_cols_spec (df : DF) (hc : ∀ c ∈ checkedCols, c ∈ df.cols)
    (hs : ∃ nr ∈ df.rows, survivesClean nr.2 = true) :
    (cleaner df).cols = df.cols.filter (fun c => c ∈ checkedCols) := by
  show df.cols.filter _ = _
  refine List.filter_congr (fun c hcol => ?_)
  rw [show (dropnaSubsetStep (maskStep df)).rows = (cleaner df).rows from rfl,
    cleaner_rows_spec df hc]
  by_cases hck : c ∈ checkedCols
  · rw [decide_eq_true hck, List.all_eq_true]
    intro nr hnr
    simp only [List.mem_map, List.mem_filter] at hnr
    obtain ⟨nr₀, ⟨_, hsur⟩, rfl⟩ := hnr
    rw [getCell_maskedCells, if_pos (hc c hck), if_pos hck, maskPos_isSome]
    rw [survivesClean_eq_true_iff] at hsur
    rw [posCell_eq_true_iff]
    simp only [checkedCols, List.mem_cons, List.not_mem_nil, or_false] at hck
    rcases hck with rfl | rfl | rfl
    · exact hsur.1
    · exact hsur.2.1
    · exact hsur.2.2
  · rw [decide_eq_false hck]
    refine Bool.eq_false_iff.mpr (fun hall => ?_)
    rw [List.all_eq_true] at hall
    obtain ⟨nr₀, hmem, hsur⟩ := hs
    have hin : (nr₀.1, maskedCells df.cols nr₀.2) ∈
        (df.rows.filter (fun nr => survivesClean nr.2)).map
          (fun nr => (nr.1, maskedCells df.cols nr.2)) := by
      exact List.mem_map_of_mem _ (List.mem_filter.mpr ⟨hmem, hsur⟩)
    have := hall _ hin
    rw [getCell_maskedCells, if_pos hcol, if_neg hck] at this
    simp at this

/-- Bridge between the two cleaner models: on the cells of a pipeline row,
the DataFrame cleaner's row predicate is exactly the predicate `cleanRows`
filters by. -/
lemma survivesClean_dataRowCells (x : DataRow) :
    survivesClean (dataRowCells x) = true ↔
      (0 < x.coal ∧ 0 < x.opp ∧ ∃ d, x.reserve_days = some d ∧ 0 < d) := by
  rw [survivesClean_eq_true_iff]
  constructor
  · rintro ⟨⟨v₁, hv₁, hp₁⟩, ⟨v₂, hv₂, hp₂⟩, ⟨v₃, hv₃, hp₃⟩⟩
    simp only [dataRowCells, getCell_cons] at hv₁ hv₂ hv₃
    simp at hv₁ hv₂ hv₃
    exact ⟨hv₁ ▸ hp₁, hv₂ ▸ hp₂, v₃, hv₃, hp₃⟩
  · rintro ⟨h₁, h₂, d, hd, hpd⟩
    refine ⟨⟨x.coal, ?_, h₁⟩, ⟨x.opp, ?_, h₂⟩, ⟨d, ?_, hpd⟩⟩ <;>
      simp [dataRowCells, getCell_cons, hd]

/-! ### Lemmas about the record-level pipeline -/

lemma mem_dedupGo {x : DataRow} :
    ∀ (seen : List String) (rows : List DataRow), x ∈ dedupGo seen rows → x ∈ rows := by
  intro seen rows
  induction rows generalizing seen with
  | nil => simp [dedupGo]
  | cons y ys ih =>
    intro hx
    rw [dedupGo] at hx
    by_cases hy : y.name ∈ seen
    · rw [if_pos hy] at hx
      exact List.mem_cons_of_mem _ (ih _ hx)
    · rw [if_neg hy] at hx
      rcases List.mem_cons.mp hx with rfl | hx'
      · exact List.mem_cons_self _ _
      · exact List.mem_cons_of_mem _ (ih _ hx')

lemma mem_dedupKeepFirst {x : DataRow} {rows : List DataRow}
    (h : x ∈ dedupKeepFirst rows) : x ∈ rows :=
  mem_dedupGo [] rows h

lemma mem_cleanRows {c : CRow} {rows : List DataRow} (h : c ∈ cleanRows rows) :
    0 < c.coal ∧ 0 < c.opp ∧ 0 < c.reserve_days ∧
      ∃ x ∈ rows, x.coal = c.coal ∧ x.opp = c.opp ∧
        x.reserve_days = some c.reserve_days ∧ x.kosher = c.kosher := by
  rw [cleanRows, List.mem_filterMap] at h
  obtain ⟨x, hx, hfx⟩ := h
  split at hfx
  case h_2 => simp at hfx
  case h_1 d hrd =>
    split at hfx
    case isFalse => simp at hfx
    case isTrue hcond =>
      obtain ⟨h₁, h₂, h₃⟩ := hcond
      cases hfx
      exact ⟨h₁, h₂, h₃, x, hx, rfl, rfl, hrd, rfl⟩

lemma mem_analysisRows {a : AnRow} {r : ℚ} {input : List DataRow}
    (h : a ∈ analysisRows r input) :
    ∃ c ∈ cleanRows (dedupKeepFirst ((input.map (applySplit r)).map addTotals)),
      a = addRatios c ∧ 0 < c.coal ∧ 0 < c.opp ∧ 0 < c.reserve_days ∧
        ∃ x ∈ input, c.kosher = x.kosher := by
  rw [analysisRows, List.mem_map] at h
  obtain ⟨c, hc, rfl⟩ := h
  obtain ⟨h₁, h₂, h₃, x, hx, _, _, _, hk⟩ := mem_cleanRows hc
  have hx' : x ∈ (input.map (applySplit r)).map addTotals := mem_dedupKeepFirst hx
  rw [List.map_map, List.mem_map] at hx'
  obtain ⟨x₀, hx₀, rfl⟩ := hx'
  refine ⟨c, hc, rfl, h₁, h₂, h₃, x₀, hx₀, ?_⟩
  rw [← hk]
  rfl

/-- The fields of an analysis row in terms of its cleaned source row. -/
lemma addRatios_fields (c : CRow) :
    (addRatios c).coal = c.coal ∧ (addRatios c).opp = c.opp ∧
      (addRatios c).reserve_days = c.reserve_days ∧
      (addRatios c).kosher = c.kosher ∧
      (addRatios c).coal_ratio = c.coal / (c.coal + c.opp) ∧
      (addRatios c).opp_ratio = 1 - c.coal / (c.coal + c.opp) := by
  exact ⟨rfl, rfl, rfl, rfl, rfl, rfl⟩

lemma sortByCut_perm (sel : AnRow → ℚ) (rows : List AnRow) :
    List.Perm (sortByCut sel rows) rows :=
  List.perm_insertionSort _ rows

lemma mem_sortByCut {sel : AnRow → ℚ} {rows : List AnRow} {a : AnRow} :
    a ∈ sortByCut sel rows ↔ a ∈ rows :=
  (sortByCut_perm sel rows).mem_iff

/-! ### Lemmas about cumulative sums, group maxima and bins -/

lemma cumsumFrom_length (xs : List ℚ) : ∀ s, (cumsumFrom s xs).length = xs.length := by
  induction xs with
  | nil => intro s; rfl
  | cons x xs ih => intro s; simp [cumsumFrom, ih]

lemma chain_cumsumFrom {xs : List ℚ} (h : ∀ x ∈ xs, 0 ≤ x) :
    ∀ s, List.Chain (· ≤ ·) s (cumsumFrom s xs) := by
  induction xs with
  | nil => intro s; exact List.Chain.nil
  | cons x xs ih =>
    intro s
    rw [cumsumFrom]
    exact List.Chain.cons
      (le_add_of_nonneg_right (h x (List.mem_cons_self _ _)))
      (ih (fun y hy => h y (List.mem_cons_of_mem _ hy)) (s + x))

lemma chain'_cumsum {xs : List ℚ} (h : ∀ x ∈ xs, 0 ≤ x) :
    List.Chain' (· ≤ ·) (cumsum xs) := by
  cases xs with
  | nil => exact List.chain'_nil
  | cons x xs =>
    rw [cumsum, cumsumFrom]
    exact chain_cumsumFrom (fun y hy => h y (List.mem_cons_of_mem _ hy)) (0 + x)

lemma mem_cumsumFrom_pos {xs : List ℚ} (hx : ∀ x ∈ xs, 0 < x) :
    ∀ s, 0 ≤ s → ∀ y ∈ cumsumFrom s xs, 0 < y := by
  induction xs with
  | nil => intro s _ y hy; exact absurd hy (by simp [cumsumFrom])
  | cons x xs ih =>
    intro s hs y hy
    rw [cumsumFrom] at hy
    have hsx : 0 < s + x := add_pos_of_nonneg_of_pos hs (hx x (List.mem_cons_self _ _))
    rcases List.mem_cons.mp hy with rfl | hy'
    · exact hsx
    · exact ih (fun z hz => hx z (List.mem_cons_of_mem _ hz)) (s + x) hsx.le y hy'

lemma aggMax_mem : ∀ {xs : List ℚ} {m : ℚ}, aggMax xs = some m → m ∈ xs := by
  intro xs
  induction xs with
  | nil => intro m h; simp [aggMax] at h
  | cons x xs ih =>
    intro m h
    rw [aggMax] at h
    cases hxs : aggMax xs with
    | none => rw [hxs] at h; cases h; exact List.mem_cons_self _ _
    | some m' =>
      rw [hxs] at h
      cases h
      rcases max_choice x m' with hm | hm
      · rw [hm]; exact List.mem_cons_self _ _
      · rw [hm]; exact List.mem_cons_of_mem _ (ih hxs)

lemma aggMax_isSome {xs : List ℚ} {y : ℚ} (h : y ∈ xs) : (aggMax xs).isSome := by
  induction xs with
  | nil => exact absurd h (List.not_mem_nil y)
  | cons x xs ih =>
    rw [aggMax]
    cases hxs : aggMax xs with
    | none => simp
    | some m => simp

lemma binOfAux_lt {x : ℚ} : ∀ {n i : ℕ}, binOfAux x n = some i → i < n := by
  intro n
  induction n with
  | zero => intro i h; exact absurd h (by simp [binOfAux])
  | succ n ih =>
    intro i h
    rw [binOfAux] at h
    by_cases hc : (n : ℚ) / 20 < x ∧ x ≤ ((n : ℚ) + 1) / 20
    · rw [if_pos hc] at h; cases h; exact Nat.lt_succ_self n
    · rw [if_neg hc] at h; exact Nat.lt_succ_of_lt (ih h)

lemma binOfAux_isSome {x : ℚ} (hx : 0 < x) :
    ∀ {n : ℕ}, x ≤ (n : ℚ) / 20 → (binOfAux x n).isSome := by
  intro n
  induction n with
  | zero =>
    intro h
    exfalso
    simp only [Nat.cast_zero, zero_div] at h
    linarith
  | succ n ih =>
    intro h
    rw [binOfAux]
    by_cases hc : (n : ℚ) / 20 < x ∧ x ≤ ((n : ℚ) + 1) / 20
    · rw [if_pos hc]; rfl
    · rw [if_neg hc]
      push_neg at hc
      have hcast : (((n + 1 : ℕ)) : ℚ) / 20 = ((n : ℚ) + 1) / 20 := by push_cast; ring
      rw [hcast] at h
      have hle : x ≤ (n : ℚ) / 20 := by
        by_contra hlt
        push_neg at hlt
        exact absurd h (not_le.mpr (hc hlt))
      exact ih hle

lemma binOf_mem_binLabels {x : ℚ} (h0 : 0 < x) (h1 : x ≤ 1) :
    ∃ lab ∈ binLabels, binOf x = some lab := by
  have h20 : x ≤ ((20 : ℕ) : ℚ) / 20 := by norm_num; linarith
  have hsome := binOfAux_isSome h0 h20
  cases hi : binOfAux x 20 with
  | none => rw [hi] at hsome; exact absurd hsome (by simp)
  | some i =>
    refine ⟨(i : ℚ) / 20, ?_, ?_⟩
    · rw [binLabels, List.mem_map]
      exact ⟨i, List.mem_range.mpr (binOfAux_lt hi), rfl⟩
    · rw [binOf, hi, Option.map_some']

/-! ### Lemmas about the per-bin aggregated results column -/

lemma mem_filterMap_cums {sorted : List AnRow} {sel : AnRow → ℚ} {lab y : ℚ}
    (hy : y ∈ ((sorted.map (fun a => binOf (sel a))).zip
        (cumsum (sorted.map (fun a => a.reserve_days)))).filterMap
      (fun p => if p.1 = some lab then some p.2 else none)) :
    y ∈ cumsum (sorted.map (fun a => a.reserve_days)) := by
  rw [List.mem_filterMap] at hy
  obtain ⟨p, hp, hfp⟩ := hy
  by_cases hc : p.1 = some lab
  · rw [if_pos hc] at hfp
    cases hfp
    exact (List.of_mem_zip hp).2
  · rw [if_neg hc] at hfp
    exact absurd hfp (by simp)

lemma resultsColOf_pos {sel : AnRow → ℚ} {sorted : List AnRow} {lab : ℚ}
    (hpos : ∀ a ∈ sorted, 0 < a.reserve_days)
    (hbin : ∃ a ∈ sorted, binOf (sel a) = some lab) :
    ∃ m, resultsColOf sel sorted lab = some m ∧ 0 < m := by
  obtain ⟨a, ha, hcut⟩ := hbin
  obtain ⟨i, hilen, hget⟩ := List.getElem_of_mem ha
  have hlc : (cumsum (sorted.map (fun b => b.reserve_days))).length = sorted.length := by
    rw [cumsum, cumsumFrom_length, List.length_map]
  have hcl : (sorted.map (fun b => binOf (sel b))).length = sorted.length :=
    List.length_map _ _
  have hzl : i < ((sorted.map (fun b => binOf (sel b))).zip
      (cumsum (sorted.map (fun b => b.reserve_days)))).length := by
    rw [List.length_zip, hcl, hlc]
    exact lt_min hilen hilen
  have hic : i < (sorted.map (fun b => binOf (sel b))).length := by rw [hcl]; exact hilen
  have him : i < (cumsum (sorted.map (fun b => b.reserve_days))).length := by
    rw [hlc]; exact hilen
  have hcuti : (sorted.map (fun b => binOf (sel b)))[i] = some lab := by
    rw [List.getElem_map, hget, hcut]
  have hmemf : (cumsum (sorted.map (fun b => b.reserve_days)))[i] ∈
      ((sorted.map (fun b => binOf (sel b))).zip
        (cumsum (sorted.map (fun b => b.reserve_days)))).filterMap
      (fun p => if p.1 = some lab then some p.2 else none) := by
    rw [List.mem_filterMap]
    refine ⟨((sorted.map (fun b => binOf (sel b)))[i],
      (cumsum (sorted.map (fun b => b.reserve_days)))[i]), ?_, ?_⟩
    · exact List.mem_iff_getElem.mpr ⟨i, hzl, List.getElem_zip⟩
    · rw [if_pos hcuti]
  have hposc : ∀ y ∈ cumsum (sorted.map (fun b => b.reserve_days)), 0 < y := by
    rw [cumsum]
    refine mem_cumsumFrom_pos ?_ 0 le_rfl
    intro z hz
    rw [List.mem_map] at hz
    obtain ⟨b, hb, rfl⟩ := hz
    exact hpos b hb
  have hsome := aggMax_isSome hmemf
  rw [Option.isSome_iff_exists] at hsome
  obtain ⟨m, hm⟩ := hsome
  refine ⟨m, ?_, ?_⟩
  · rw [resultsColOf]
    exact hm
  · exact hposc m (mem_filterMap_cums (aggMax_mem hm))

lemma resultsColOf_eq_none {sel : AnRow → ℚ} {sorted : List AnRow} {lab : ℚ}
    (h : ∀ a ∈ sorted, binOf (sel a) ≠ some lab) :
    resultsColOf sel sorted lab = none := by
  rw [resultsColOf]
  have hnil : (((sorted.map (fun a => binOf (sel a))).zip
      (cumsum (sorted.map (fun a => a.reserve_days)))).filterMap
      (fun p => if p.1 = some lab then some p.2 else none)) = [] := by
    rw [List.filterMap_eq_nil_iff]
    intro p hp
    have h1 := (List.of_mem_zip hp).1
    rw [List.mem_map] at h1
    obtain ⟨a, ha, hpa⟩ := h1
    rw [if_neg]
    rw [← hpa]
    exact h a ha
  rw [hnil]
  rfl

/-! ### The claims -/

/-- C1: Every row surviving the Cleaner into the analysis table has
`coal`, `opp` and `reserve_days` present and strictly positive, every input
row failing any of these conditions is excluded, and the surviving rows'
checked cells are unchanged: the cleaned rows are exactly the masked images
of the input rows satisfying the three-column check, the check holds iff all
three cells are present and strictly positive, and masking preserves the
three checked cells of a passing row. -/
theorem C1_cleaner_keeps_exactly_positive_rows (df : DF)
    (hc : ∀ c ∈ checkedCols, c ∈ df.cols) (r : RowCells) :
    (cleaner df).rows =
      (df.rows.filter (fun nr => survivesClean nr.2)).map
        (fun nr => (nr.1, maskedCells df.cols nr.2)) ∧
    (survivesClean r = true ↔
      ((∃ v, getCell r "coal" = some v ∧ 0 < v) ∧
        (∃ v, getCell r "opp" = some v ∧ 0 < v) ∧
        (∃ v, getCell r "reserve_days" = some v ∧ 0 < v))) ∧
    (survivesClean r = true →
      getCell (maskedCells df.cols r) "coal" = getCell r "coal" ∧
      getCell (maskedCells df.cols r) "opp" = getCell r "opp" ∧
      getCell (maskedCells df.cols r) "reserve_days" = getCell r "reserve_days") := by
  refine ⟨cleaner_rows_spec df hc, survivesClean_eq_true_iff r, fun hs => ?_⟩
  rw [survivesClean_eq_true_iff] at hs
  obtain ⟨⟨v₁, hv₁, hp₁⟩, ⟨v₂, hv₂, hp₂⟩, ⟨v₃, hv₃, hp₃⟩⟩ := hs
  refine ⟨?_, ?_, ?_⟩
  · rw [getCell_maskedCells, if_pos (hc _ (by simp [checkedCols])),
      if_pos (by simp [checkedCols]), hv₁]
    simp [maskPos, hp₁]
  · rw [getCell_maskedCells, if_pos (hc _ (by simp [checkedCols])),
      if_pos (by simp [checkedCols]), hv₂]
    simp [maskPos, hp₂]
  · rw [getCell_maskedCells, if_pos (hc _ (by simp [checkedCols])),
      if_pos (by simp [checkedCols]), hv₃]
    simp [maskPos, hp₃]

/-- Witness for C1 at a concrete frame and row. -/
theorem C1_witness :
    (cleaner exDF1).rows =
      (exDF1.rows.filter (fun nr => survivesClean nr.2)).map
        (fun nr => (nr.1, maskedCells exDF1.cols nr.2)) ∧
    (survivesClean exCellsPass = true ↔
      ((∃ v, getCell exCellsPass "coal" = some v ∧ 0 < v) ∧
        (∃ v, getCell exCellsPass "opp" = some v ∧ 0 < v) ∧
        (∃ v, getCell exCellsPass "reserve_days" = some v ∧ 0 < v))) ∧
    (survivesClean exCellsPass = true →
      getCell (maskedCells exDF1.cols exCellsPass) "coal" = getCell exCellsPass "coal" ∧
      getCell (maskedCells exDF1.cols exCellsPass) "opp" = getCell exCellsPass "opp" ∧
      getCell (maskedCells exDF1.cols exCellsPass) "reserve_days" =
        getCell exCellsPass "reserve_days") :=
  C1_cleaner_keeps_exactly_positive_rows exDF1 (by decide) exCellsPass

/-- C3 fails on the code: in `exDF3` the column `extra` has no missing value
in any input row whatsoever (so in particular none outside the surviving
rows), a row survives the row filter, and yet `extra` is dropped from the
analysis table. -/
theorem C3_counterexample :
    (cleaner exDF3).cols = ["coal", "opp", "reserve_days"] ∧
    exDF3.rows.all (fun nr => (getCell nr.2 "extra").isSome) = true ∧
    (cleaner exDF3).rows.length = 1 := by
  refine ⟨?_, by decide, ?_⟩ <;> decide

/-- C3 (amended): row filtering does happen before column-dropping, but the
boolean-mask step has already replaced every value outside the three checked
columns by a missing value; hence as soon as one row survives, *every*
column other than `coal`, `opp`, `reserve_days` is dropped - including
a column with no missing values at all. -/
theorem C3_mask_blanks_all_other_columns (df : DF)
    (hc : ∀ c ∈ checkedCols, c ∈ df.cols)
    (hs : ∃ nr ∈ df.rows, survivesClean nr.2 = true) :
    (cleaner df).cols = df.cols.filter (fun c => c ∈ checkedCols) :=
  cleaner_cols_spec df hc hs

/-- Witness for the amended C3 at a concrete frame. -/
theorem C3_mask_blanks_all_other_columns_witness :
    (cleaner exDF3).cols = exDF3.cols.filter (fun c => c ∈ checkedCols) :=
  C3_mask_blanks_all_other_columns exDF3 (by decide) (by decide)

/-- C2 fails as stated: `pd.cut`'s bins are left-open and right-closed, so
the ratio `0.95 = 19/20` lands in the interval `(0.90, 0.95]` labelled
`0.90 = 9/10` (not in the bin labelled `0.95`), and the ratio `0` is
assigned to no bin at all. -/
theorem C2_counterexample :
    binOf (19 / 20) = some (9 / 10) ∧ binOf (19 / 20) ≠ some (19 / 20) ∧
      binOf 0 = none := by
  refine ⟨?_, ?_, ?_⟩ <;> norm_num [binOf, binOfAux]

/-- C2 (amended): bin assignment is deterministic (`binOf` is a function)
and total on the half-open interval `(0, 1]`: every such ratio receives
exactly one of the 20 labels; the ratio `0` receives no bin, and the ratio
`0.95` receives the label `0.90`. -/
theorem C2_bin_assignment (x : ℚ) (h0 : 0 < x) (h1 : x ≤ 1) :
    (∃ lab ∈ binLabels, binOf x = some lab) ∧
      binOf 0 = none ∧ binOf (19 / 20) = some (9 / 10) := by
  refine ⟨binOf_mem_binLabels h0 h1, ?_, ?_⟩ <;> norm_num [binOf, binOfAux]

/-- Witness for the amended C2 at the ratio `1/2`. -/
theorem C2_bin_assignment_witness :
    (∃ lab ∈ binLabels, binOf (1 / 2) = some lab) ∧
      binOf 0 = none ∧ binOf (19 / 20) = some (9 / 10) :=
  C2_bin_assignment (1 / 2) (by norm_num) (by norm_num)

/-- C4 fails as stated: with split ratio `1/2` and a row whose only votes
are the designated party's 100, the synthetic `saar` column receives 50
votes and the coalition total equals exactly those 50 votes, although every
coalition party column of the row is zero - the moved votes *are* counted
in a bloc total. -/
theorem C4_counterexample :
    (applySplit (1 / 2) exRowKen).saar = 50 ∧
    (addTotals (applySplit (1 / 2) exRowKen)).coal = 50 ∧
    (addTotals (applySplit (1 / 2) exRowKen)).opp = 50 ∧
    exRowKen.mahal = 0 ∧ exRowKen.shas = 0 ∧ exRowKen.g = 0 ∧
    exRowKen.t = 0 ∧ exRowKen.b = 0 := by
  refine ⟨?_, ?_, ?_, rfl, rfl, rfl, rfl, rfl⟩ <;>
  · simp +decide only [applySplit, addTotals, exRowKen, coalition, opposition,
      partyVote, List.map_cons, List.map_nil, List.sum_cons, List.sum_nil,
      if_true, if_false]
    norm_num

/-- C4 (amended): the split moves `r * ken` of the designated opposition
party's votes into the new `saar` column, but `saar` is a member of the
*coalition* mapping (and of neither a synthetic bloc-agnostic grouping nor
the opposition), so for every split ratio the moved votes are counted in the
coalition total and removed from the opposition total. -/
theorem C4_split_votes_counted_in_coalition (r : ℚ) (x : DataRow) :
    "saar" ∈ coalition ∧ "saar" ∉ opposition ∧
    (addTotals (applySplit r x)).coal = (addTotals (applySplit 0 x)).coal + r * x.ken ∧
    (addTotals (applySplit r x)).opp = (addTotals (applySplit 0 x)).opp - r * x.ken := by
  refine ⟨by decide, by decide, ?_, ?_⟩ <;>
  · simp +decide only [applySplit, addTotals, coalition, opposition, partyVote,
      List.map_cons, List.map_nil, List.sum_cons, List.sum_nil, if_true, if_false]
    ring

/-- Witness for the amended C4 at ratio `1/2` and a concrete row. -/
theorem C4_split_votes_counted_in_coalition_witness :
    "saar" ∈ coalition ∧ "saar" ∉ opposition ∧
    (addTotals (applySplit (1 / 2) exRowKen)).coal =
      (addTotals (applySplit 0 exRowKen)).coal + 1 / 2 * exRowKen.ken ∧
    (addTotals (applySplit (1 / 2) exRowKen)).opp =
      (addTotals (applySplit 0 exRowKen)).opp - 1 / 2 * exRowKen.ken :=
  C4_split_votes_counted_in_coalition (1 / 2) exRowKen

/-- C9: the split conserves votes - the synthetic column plus the remaining
designated-party column equal the original count, at ratio `1` the whole
count moves, and the row's aggregate vote total is unchanged (the `saar`
column holds `0` before the split step creates it, as in the script, where
the column does not exist before line 64). -/
theorem C9_split_conserves_votes (r : ℚ) (x : DataRow)
    (h0 : 0 ≤ r) (h1 : r ≤ 1) (hsa : x.saar = 0) :
    (applySplit r x).saar + (applySplit r x).ken = x.ken ∧
    (applySplit 1 x).saar = x.ken ∧ (applySplit 1 x).ken = 0 ∧
    totalVotes (applySplit r x) = totalVotes x := by
  refine ⟨?_, ?_, ?_, ?_⟩
  · show x.ken * r + x.ken * (1 - r) = x.ken
    ring
  · show x.ken * 1 = x.ken
    ring
  · show x.ken * (1 - 1) = 0
    ring
  · simp +decide only [totalVotes, applySplit, coalition, opposition, partyVote,
      List.append_eq, List.cons_append, List.nil_append,
      List.map_cons, List.map_nil, List.sum_cons, List.sum_nil, if_true, if_false]
    rw [hsa]
    ring

/-- Witness for C9 at ratio `1/2` and a concrete row. -/
theorem C9_split_conserves_votes_witness :
    (applySplit (1 / 2) exRowKen).saar + (applySplit (1 / 2) exRowKen).ken = exRowKen.ken ∧
    (applySplit 1 exRowKen).saar = exRowKen.ken ∧ (applySplit 1 exRowKen).ken = 0 ∧
    totalVotes (applySplit (1 / 2) exRowKen) = totalVotes exRowKen :=
  C9_split_conserves_votes (1 / 2) exRowKen (by norm_num) (by norm_num) rfl

/-- C6: for every analysis row, `coal_ratio = coal / (coal + opp)`,
`opp_ratio = 1 - coal_ratio`, the weighted reserve-day columns are
`ratio * reserve_days`, and the two ratios sum to exactly `1`. -/
theorem C6_ratio_formulas (r : ℚ) (input : List DataRow) (a : AnRow)
    (h : a ∈ analysisRows r input) :
    a.coal_ratio = a.coal / (a.coal + a.opp) ∧
    a.opp_ratio = 1 - a.coal_ratio ∧
    a.coal_reserves_times_ratio = a.coal_ratio * a.reserve_days ∧
    a.opp_reserves_times_ratio = a.opp_ratio * a.reserve_days ∧
    a.coal_ratio + a.opp_ratio = 1 := by
  obtain ⟨c, _, rfl, _⟩ := mem_analysisRows h
  exact ⟨rfl, rfl, rfl, rfl, by show c.coal / (c.coal + c.opp) +
    (1 - c.coal / (c.coal + c.opp)) = 1; ring⟩

/-- C10: for every analysis row both bloc ratios lie strictly between 0 and
1, because the Cleaner guarantees both bloc totals are strictly positive. -/
theorem C10_ratios_strictly_between (r : ℚ) (input : List DataRow) (a : AnRow)
    (h : a ∈ analysisRows r input) :
    0 < a.coal_ratio ∧ a.coal_ratio < 1 ∧ 0 < a.opp_ratio ∧ a.opp_ratio < 1 := by
  obtain ⟨c, _, rfl, hc, ho, _⟩ := mem_analysisRows h
  have hsum : 0 < c.coal + c.opp := add_pos hc ho
  have h1 : 0 < c.coal / (c.coal + c.opp) := div_pos hc hsum
  have h2 : c.coal / (c.coal + c.opp) < 1 :=
    (div_lt_one hsum).mpr (lt_add_of_pos_right _ ho)
  refine ⟨h1, h2, ?_, ?_⟩
  · show 0 < 1 - c.coal / (c.coal + c.opp)
    linarith
  · show 1 - c.coal / (c.coal + c.opp) < 1
    linarith

/-- C7: for each bloc, if the bin labelled `0.95` contains at least one
locality, the normalized result value at that bin is exactly `1`. -/
theorem C7_normalized_ref_bin_is_one (r : ℚ) (input : List DataRow) :
    ((∃ a ∈ analysisRows r input, binOf a.coal_ratio = some (19 / 20)) →
      coalNormalized r input (19 / 20) = some 1) ∧
    ((∃ a ∈ analysisRows r input, binOf a.opp_ratio = some (19 / 20)) →
      oppNormalized r input (19 / 20) = some 1) := by
  have hrd : ∀ a ∈ analysisRows r input, 0 < a.reserve_days := by
    intro a ha
    obtain ⟨c, _, rfl, _, _, h3, _⟩ := mem_analysisRows ha
    exact h3
  constructor
  · rintro ⟨a, ha, hcut⟩
    have hpos : ∀ b ∈ coalSorted r input, 0 < b.reserve_days :=
      fun b hb => hrd b (mem_sortByCut.mp hb)
    obtain ⟨m, hm, hmpos⟩ := resultsColOf_pos hpos
      ⟨a, mem_sortByCut.mpr ha, hcut⟩
    rw [coalNormalized, hm]
    simp only [cellDiv]
    rw [if_neg (ne_of_gt hmpos), div_self (ne_of_gt hmpos)]
  · rintro ⟨a, ha, hcut⟩
    have hpos : ∀ b ∈ oppSorted r input, 0 < b.reserve_days :=
      fun b hb => hrd b (mem_sortByCut.mp (mem_sortByCut.mp hb))
    obtain ⟨m, hm, hmpos⟩ := resultsColOf_pos hpos
      ⟨a, mem_sortByCut.mpr (mem_sortByCut.mpr ha), hcut⟩
    rw [oppNormalized, hm]
    simp only [cellDiv]
    rw [if_neg (ne_of_gt hmpos), div_self (ne_of_gt hmpos)]

/-- C5 fails as stated: on a dataset whose only locality has both bloc
ratios `1/2`, the reference bin `0.95` is empty, yet the run does not abort:
the pre-normalization results column still holds the locality's cumulative
reserve days at bin `0.45`, and after normalization every value of the
column - including that one - has silently become `NaN`. -/
theorem C5_counterexample :
    resultsColOf (fun a => a.coal_ratio) (coalSorted 0 [exRowHalf]) (9 / 20) = some 4 ∧
    coalNormalized 0 [exRowHalf] (9 / 20) = none ∧
    coalNormalized 0 [exRowHalf] (19 / 20) = none := by
  have h : coalSorted 0 [exRowHalf] = [addRatios ⟨"a", 1, 1, 4, 3⟩] := by
    simp +decide only [coalSorted, sortByCut, List.insertionSort, analysisRows,
      cleanRows, dedupKeepFirst, dedupGo, applySplit, addTotals, exRowHalf,
      coalition, opposition, partyVote, List.filterMap, List.map]
    norm_num [addRatios]
  refine ⟨?_, ?_, ?_⟩
  · rw [h]
    norm_num [resultsColOf, addRatios, cumsum, cumsumFrom, binOf, binOfAux, aggMax,
      List.filterMap, List.zip, List.zipWith]
  · rw [coalNormalized, h]
    norm_num [resultsColOf, addRatios, cumsum, cumsumFrom, binOf, binOfAux, aggMax,
      List.filterMap, List.zip, List.zipWith, cellDiv]
  · rw [coalNormalized, h]
    norm_num [resultsColOf, addRatios, cumsum, cumsumFrom, binOf, binOfAux, aggMax,
      List.filterMap, List.zip, List.zipWith, cellDiv]

/-- C5 (amended): if no locality of the analysis table falls in the bin
labelled `0.95` for a bloc, normalization does not abort; the `groupby`
(with `observed=False`) still reports the label `0.95` with a missing value,
and dividing by it silently turns the bloc's entire normalized column into
`NaN`. -/
theorem C5_empty_ref_bin_gives_nan (r : ℚ) (input : List DataRow) :
    ((∀ a ∈ analysisRows r input, binOf a.coal_ratio ≠ some (19 / 20)) →
      ∀ lab, coalNormalized r input lab = none) ∧
    ((∀ a ∈ analysisRows r input, binOf a.opp_ratio ≠ some (19 / 20)) →
      ∀ lab, oppNormalized r input lab = none) := by
  constructor
  · intro hcoal lab
    have hnone : resultsColOf (fun a => a.coal_ratio) (coalSorted r input) (19 / 20) = none :=
      resultsColOf_eq_none (fun a ha => hcoal a (mem_sortByCut.mp ha))
    rw [coalNormalized, hnone]
    cases resultsColOf (fun a => a.coal_ratio) (coalSorted r input) lab <;> rfl
  · intro hopp lab
    have hnone : resultsColOf (fun a => a.opp_ratio) (oppSorted r input) (19 / 20) = none :=
      resultsColOf_eq_none
        (fun a ha => hopp a (mem_sortByCut.mp (mem_sortByCut.mp ha)))
    rw [oppNormalized, hnone]
    cases resultsColOf (fun a => a.opp_ratio) (oppSorted r input) lab <;> rfl

/-- C8: for each bloc, the running cumulative sums of reserve days and of
valid votes, computed after sorting by bin label, are non-decreasing along
that order (the input vote counts are non-negative). -/
theorem C8_cumulative_columns_monotone (r : ℚ) (input : List DataRow)
    (hk : ∀ x ∈ input, 0 ≤ x.kosher) :
    List.Chain' (· ≤ ·) (coal_reserves r input) ∧
    List.Chain' (· ≤ ·) (coal_votes_cumsum r input) ∧
    List.Chain' (· ≤ ·) (opp_reserves r input) ∧
    List.Chain' (· ≤ ·) (opp_votes_cumsum r input) := by
  have hrd : ∀ a ∈ analysisRows r input, (0 : ℚ) ≤ a.reserve_days := by
    intro a ha
    obtain ⟨c, _, rfl, _, _, h3, _⟩ := mem_analysisRows ha
    exact le_of_lt h3
  have hko : ∀ a ∈ analysisRows r input, (0 : ℚ) ≤ a.kosher := by
    intro a ha
    obtain ⟨c, _, rfl, _, _, _, x, hx, hkx⟩ := mem_analysisRows ha
    show (0 : ℚ) ≤ c.kosher
    rw [hkx]
    exact hk x hx
  refine ⟨chain'_cumsum ?_, chain'_cumsum ?_, chain'_cumsum ?_, chain'_cumsum ?_⟩ <;>
    intro y hy <;> rw [List.mem_map] at hy <;> obtain ⟨a, ha, rfl⟩ := hy
  · exact hrd a (mem_sortByCut.mp ha)
  · exact hko a (mem_sortByCut.mp ha)
  · exact hrd a (mem_sortByCut.mp (mem_sortByCut.mp ha))
  · exact hko a (mem_sortByCut.mp (mem_sortByCut.mp ha))

/-- Evaluation of the analysis table on the one-locality input `exRowMid`. -/
lemma analysisRows_exRowMid :
    analysisRows 0 [exRowMid] = [addRatios ⟨"m", 3, 1, 2, 1⟩] := by
  simp +decide only [analysisRows, cleanRows, dedupKeepFirst, dedupGo, applySplit,
    addTotals, exRowMid, coalition, opposition, partyVote, List.filterMap, List.map,
    if_true, if_false]
  norm_num [addRatios]

/-- Evaluation of the analysis table on the one-locality input `exRowHalf`. -/
lemma analysisRows_exRowHalf :
    analysisRows 0 [exRowHalf] = [addRatios ⟨"a", 1, 1, 4, 3⟩] := by
  simp +decide only [analysisRows, cleanRows, dedupKeepFirst, dedupGo, applySplit,
    addTotals, exRowHalf, coalition, opposition, partyVote, List.filterMap, List.map,
    if_true, if_false]
  norm_num [addRatios]

/-- Evaluation of the analysis table on the two-locality input
`[exRowCoal, exRowOpp]`. -/
lemma analysisRows_exPair :
    analysisRows 0 [exRowCoal, exRowOpp] =
      [addRatios ⟨"a", 99, 1, 10, 5⟩, addRatios ⟨"b", 1, 99, 20, 5⟩] := by
  simp +decide only [analysisRows, cleanRows, dedupKeepFirst, dedupGo, applySplit,
    addTotals, exRowCoal, exRowOpp, coalition, opposition, partyVote,
    List.filterMap, List.map, if_true, if_false]
  norm_num [addRatios]

/-- Witness for C6 on a concrete analysis row (ratios `3/4` and `1/4`). -/
theorem C6_ratio_formulas_witness :
    (addRatios ⟨"m", 3, 1, 2, 1⟩).coal_ratio =
      (addRatios ⟨"m", 3, 1, 2, 1⟩).coal /
        ((addRatios ⟨"m", 3, 1, 2, 1⟩).coal + (addRatios ⟨"m", 3, 1, 2, 1⟩).opp) ∧
    (addRatios ⟨"m", 3, 1, 2, 1⟩).opp_ratio =
      1 - (addRatios ⟨"m", 3, 1, 2, 1⟩).coal_ratio ∧
    (addRatios ⟨"m", 3, 1, 2, 1⟩).coal_reserves_times_ratio =
      (addRatios ⟨"m", 3, 1, 2, 1⟩).coal_ratio *
        (addRatios ⟨"m", 3, 1, 2, 1⟩).reserve_days ∧
    (addRatios ⟨"m", 3, 1, 2, 1⟩).opp_reserves_times_ratio =
      (addRatios ⟨"m", 3, 1, 2, 1⟩).opp_ratio *
        (addRatios ⟨"m", 3, 1, 2, 1⟩).reserve_days ∧
    (addRatios ⟨"m", 3, 1, 2, 1⟩).coal_ratio +
      (addRatios ⟨"m", 3, 1, 2, 1⟩).opp_ratio = 1 :=
  C6_ratio_formulas 0 [exRowMid] (addRatios ⟨"m", 3, 1, 2, 1⟩)
    (by rw [analysisRows_exRowMid]; exact List.mem_cons_self _ _)

/-- Witness for C10 on a concrete analysis row. -/
theorem C10_ratios_strictly_between_witness :
    0 < (addRatios ⟨"m", 3, 1, 2, 1⟩).coal_ratio ∧
    (addRatios ⟨"m", 3, 1, 2, 1⟩).coal_ratio < 1 ∧
    0 < (addRatios ⟨"m", 3, 1, 2, 1⟩).opp_ratio ∧
    (addRatios ⟨"m", 3, 1, 2, 1⟩).opp_ratio < 1 :=
  C10_ratios_strictly_between 0 [exRowMid] (addRatios ⟨"m", 3, 1, 2, 1⟩)
    (by rw [analysisRows_exRowMid]; exact List.mem_cons_self _ _)

/-- Witness for C7 on a dataset where each bloc has a locality in the bin
labelled `0.95`. -/
theorem C7_normalized_ref_bin_is_one_witness :
    coalNormalized 0 [exRowCoal, exRowOpp] (19 / 20) = some 1 ∧
    oppNormalized 0 [exRowCoal, exRowOpp] (19 / 20) = some 1 :=
  ⟨(C7_normalized_ref_bin_is_one 0 [exRowCoal, exRowOpp]).1
      ⟨addRatios ⟨"a", 99, 1, 10, 5⟩,
        by rw [analysisRows_exPair]; exact List.mem_cons_self _ _,
        by norm_num [addRatios, binOf, binOfAux]⟩,
    (C7_normalized_ref_bin_is_one 0 [exRowCoal, exRowOpp]).2
      ⟨addRatios ⟨"b", 1, 99, 20, 5⟩,
        by rw [analysisRows_exPair]; simp,
        by norm_num [addRatios, binOf, binOfAux]⟩⟩

/-- Witness for the amended C5 on a dataset with an empty `0.95` bin. -/
theorem C5_empty_ref_bin_gives_nan_witness :
    coalNormalized 0 [exRowHalf] (19 / 20) = none ∧
    oppNormalized 0 [exRowHalf] (19 / 20) = none :=
  ⟨(C5_empty_ref_bin_gives_nan 0 [exRowHalf]).1
      (by
        intro a ha
        rw [analysisRows_exRowHalf] at ha
        rcases List.mem_singleton.mp ha with rfl
        norm_num [addRatios, binOf, binOfAux])
      (19 / 20),
    (C5_empty_ref_bin_gives_nan 0 [exRowHalf]).2
      (by
        intro a ha
        rw [analysisRows_exRowHalf] at ha
        rcases List.mem_singleton.mp ha with rfl
        norm_num [addRatios, binOf, binOfAux])
      (19 / 20)⟩

/-- Witness for C8 on a concrete two-locality dataset. -/
theorem C8_cumulative_columns_monotone_witness :
    List.Chain' (· ≤ ·) (coal_reserves 0 [exRowCoal, exRowOpp]) ∧
    List.Chain' (· ≤ ·) (coal_votes_cumsum 0 [exRowCoal, exRowOpp]) ∧
    List.Chain' (· ≤ ·) (opp_reserves 0 [exRowCoal, exRowOpp]) ∧
    List.Chain' (· ≤ ·) (opp_votes_cumsum 0 [exRowCoal, exRowOpp]) :=
  C8_cumulative_columns_monotone 0 [exRowCoal, exRowOpp] (by decide)

end Reserves
